import Mathlib

/-
Verification of the place/value materialization core of the MIR interpreter
(src/librustc_mir/interpret/place.rs).  The data model and all operations of
that file are shallowly embedded below; machine integers are modelled as Nat
with explicit wrap-around (% 2^w) where the source performs wrapping machine
arithmetic.  External collaborators of the file (the layout provider, the
byte-addressable memory store, the frame stack and the value accessors living
in sibling modules of the same crate) are modelled from the specification and
carry a doc comment saying so.
-/

namespace MirPlace

/-- Pointer size in bytes of the modelled 64-bit target. -/
def ptrSize : Nat := 8

/-- Modelled from the spec: an allocation-relative machine pointer of the
external memory store (allocation identifier plus byte offset). -/
structure Pointer where
  allocId : Nat
  offset : Nat
  deriving DecidableEq

/-- Modelled from the spec: a scalar bit pattern - either raw bits of a given
byte width or a pointer into the memory store. -/
inductive Scalar where
  | Bits (size : Nat) (bits : Nat)
  | Ptr (p : Pointer)
  deriving DecidableEq

/-- Modelled from the spec: a scalar that may also be uninitialized. -/
inductive ScalarMaybeUndefined where
  | scalar (s : Scalar)
  | undefined
  deriving DecidableEq

/-- Modelled from the spec: the in-register encoding of a datum - a single
scalar, or a pair of scalars (fat pointers, two-scalar-field aggregates). -/
inductive Value where
  | Scalar (s : ScalarMaybeUndefined)
  | ScalarPair (a b : ScalarMaybeUndefined)
  deriving DecidableEq

/-- Extra information for fat pointers / places. -/
inductive PlaceExtra where
  | None
  | Length (n : Nat)
  | Vtable (v : Pointer)
  deriving DecidableEq

/-- Decidable test for the trait-object metadata variant. -/
def PlaceExtra.isVtable : PlaceExtra → Bool
  | .Vtable _ => true
  | _ => false

/-- A memory-backed location: address scalar, required alignment (bytes) and
unsized-type metadata. -/
structure MemPlace where
  ptr : Scalar
  align : Nat
  extra : PlaceExtra
  deriving DecidableEq

/-- A place: either a concrete memory location or a reference to a
stack-frame local slot. -/
inductive Place where
  | Ptr (m : MemPlace)
  | Local (frame : Nat) (localIdx : Nat)
  deriving DecidableEq

/-- Errors of the interpreter core.  The source distinguishes recoverable
EvalResult errors from panics (assert/bug/unwrap failures); both abort
evaluation, so both are modelled as error values, with assertFail standing
for the panicking class. -/
inductive EvalError where
  | assertFail
  | deadLocal
  | readUndefined
  | typeMismatch
  | overflow
  | layoutErr
  deriving DecidableEq

/-- Round size up to a multiple of align (Size::abi_align of the source's
layout library; align is a positive power of two there, 0 is mapped to the
identity for totality). -/
def abi_align (size align : Nat) : Nat :=
  if align = 0 then size else (size + align - 1) / align * align

/-- Wrapping unsigned 64-bit subtraction, as performed by release-mode `a - b`
on u64 operands in the source.  Agrees with Nat subtraction when b ≤ a. -/
def wsub64 (a b : Nat) : Nat :=
  if b ≤ a then a - b else 2 ^ 64 + a - b

/-- Modelled from the spec: Scalar::ptr_offset - offset arithmetic on an
address scalar, failing on 64-bit overflow (offset/length arithmetic is done
in a width wide enough to avoid silent wrap). -/
def Scalar.ptr_offset : Scalar → Nat → Except EvalError Scalar
  | .Ptr p, i =>
      if p.offset + i < 2 ^ 64 then .ok (.Ptr ⟨p.allocId, p.offset + i⟩)
      else .error .overflow
  | .Bits sz b, i =>
      if sz = ptrSize then
        if b + i < 2 ^ 64 then .ok (.Bits sz (b + i)) else .error .overflow
      else .error .assertFail

/-- Modelled from the spec: ScalarMaybeUndefined::not_undefined - a concrete scalar is
required. -/
def ScalarMaybeUndefined.not_undefined : ScalarMaybeUndefined → Except EvalError Scalar
  | .scalar s => .ok s
  | .undefined => .error .readUndefined

/-- Modelled from the spec: Scalar::to_bits - extract the raw bits of a Bits
scalar of the expected byte width. -/
def Scalar.to_bits : Scalar → Nat → Except EvalError Nat
  | .Bits sz b, size => if sz = size then .ok b else .error .typeMismatch
  | .Ptr _, _ => .error .typeMismatch

/-- Modelled from the spec: the primitive scalar classification of the layout
provider (integer of a byte width with signedness, or a pointer). -/
inductive Primitive where
  | Int (size : Nat) (signed : Bool)
  | Pointer
  deriving DecidableEq

/-- Byte size of a primitive under the modelled data layout. -/
def Primitive.size : Primitive → Nat
  | .Int s _ => s
  | .Pointer => ptrSize

/-- Modelled from the spec: alignment of a primitive under the modelled
64-bit target data layout (natural alignment, capped at 8 bytes). -/
def Primitive.align (p : Primitive) : Nat := min p.size 8

/-- Modelled from the spec: the ABI classification a layout carries. -/
inductive Abi where
  | Uninhabited
  | Scalar (s : Primitive)
  | ScalarPair (a b : Primitive)
  | Aggregate (sized : Bool)
  deriving DecidableEq

/-- Modelled from the spec: the field-placement table of a layout - a
precomputed offset table for structs, or a stride/count pair for arrays and
slices (slices carry count 0 in their static layout). -/
inductive FieldPlacement where
  | Union (count : Nat)
  | Array (stride : Nat) (count : Nat)
  | Arbitrary (offsets : List Nat)
  deriving DecidableEq

/-- Modelled from the spec: the variant-encoding strategy of a layout.  For
Tagged the tag primitive is kept; for NicheFilling the dataful variant index,
the first niche variant index and the niche start value are kept. -/
inductive Variants where
  | Single (index : Nat)
  | Tagged (tag : Primitive)
  | NicheFilling (dataful_variant : Nat) (niche_variants_start : Nat)
      (niche_start : Nat)
  deriving DecidableEq

/-- Modelled from the spec: the statically typed view of the IR's types, with
just enough structure for the operations of the file - references, algebraic
data types with their field types, arrays, slices, str, trait objects and
opaque sized primitives. -/
inductive Ty where
  | prim (id : Nat)
  | usize
  | adt (id : Nat) (fieldTys : List Ty)
  | array (elem : Ty) (count : Nat)
  | slice (elem : Ty)
  | str
  | dynTrait (id : Nat)
  | ref (pointee : Ty)

mutual

/-- Modelled from the spec: tcx.struct_tail - the unsized tail of a type; for
an algebraic data type, recursively the tail of its last field, any other
type is its own tail. -/
def structTail : Ty → Ty
  | .adt i fs => structTailList (Ty.adt i fs) fs
  | t => t

/-- Helper for structTail: the tail of the last element of a field list, or
the default when the list is empty. -/
def structTailList (d : Ty) : List Ty → Ty
  | [] => d
  | [t] => structTail t
  | _ :: t :: rest => structTailList d (t :: rest)

end

/-- Modelled from the spec: the layout facts the external layout provider
returns for a type - size, alignment, ABI classification, field placement and
variant encoding.  This core treats them as authoritative. -/
structure TyLayout where
  ty : Ty
  size : Nat
  align : Nat
  abi : Abi
  fields : FieldPlacement
  variants : Variants

/-- Layout predicate: the type's size is not statically known (TyLayout::is_unsized). -/
def TyLayout.is_unsized (l : TyLayout) : Bool :=
  match l.abi with
  | .Aggregate sized => !sized
  | _ => false

/-- Modelled from the spec: the read-only context this core consumes - the
layout provider (layout_of and the per-field layout lookup TyLayout::field),
layout.for_variant, the raw discriminant table of the type machinery, and the
runtime alignment recoverable from a vtable (used by size_and_align_of_dst
for trait-object places; the spec fixes only that an alignment is recoverable
from the vtable, not its representation). -/
structure EvalCtx where
  layoutOf : Ty → Except EvalError TyLayout
  layoutField : TyLayout → Nat → Except EvalError TyLayout
  forVariant : TyLayout → Nat → TyLayout
  discriminantFor : Ty → Nat → Nat
  vtableAlign : Pointer → Nat

/-- Memory-allocation purpose tag passed to the allocator. -/
inductive MemoryKind where
  | Stack
  | Machine
  deriving DecidableEq

/-- A single scalar write recorded by the memory store: target address,
byte size, and the written (possibly uninitialized) scalar. -/
structure MemWrite where
  ptr : Scalar
  size : Nat
  val : ScalarMaybeUndefined
  deriving DecidableEq

/-- Truncate a written scalar to the byte width of the write: raw bits wrap
modulo 2^(8*size); pointers and undefined scalars are kept as they are. -/
def truncScalar : ScalarMaybeUndefined → Nat → ScalarMaybeUndefined
  | .scalar (.Bits _ b), size => .scalar (.Bits size (b % 2 ^ (8 * size)))
  | v, _ => v

/-- Modelled from the spec: the external byte-addressable memory store, kept
abstractly as the list of performed allocations (size, align, kind), the log
of scalar writes (most recent first) and the log of raw byte copies. -/
structure Memory where
  allocs : List (Nat × Nat × MemoryKind)
  writes : List MemWrite
  copies : List (Scalar × Scalar × Nat)

/-- Modelled from the spec: memory.allocate - returns a fresh allocation's
base pointer and records its size/alignment/kind. -/
def Memory.allocate (m : Memory) (size align : Nat) (kind : MemoryKind) :
    Pointer × Memory :=
  (⟨m.allocs.length, 0⟩,
   { m with allocs := m.allocs ++ [(size, align, kind)] })

/-- Modelled from the spec: memory.write_scalar - records a scalar write of
the given byte size at the given address. -/
def Memory.writeScalar (m : Memory) (ptr : Scalar) (val : ScalarMaybeUndefined)
    (size : Nat) : Memory :=
  { m with writes := ⟨ptr, size, truncScalar val size⟩ :: m.writes }

/-- Modelled from the spec: memory.read_scalar - the most recent scalar write
at exactly this address and size; untouched memory reads as undefined. -/
def Memory.readScalar (m : Memory) (ptr : Scalar) (size : Nat) :
    ScalarMaybeUndefined :=
  match m.writes.find? (fun w => w.ptr == ptr && w.size == size) with
  | some w => w.val
  | none => .undefined

/-- Modelled from the spec: memory.copy - records a raw byte copy of size
bytes from src to dest. -/
def Memory.copyBytes (m : Memory) (src dest : Scalar) (size : Nat) : Memory :=
  { m with copies := (src, dest, size) :: m.copies }

/-- The current representation of an operand: a register-resident value, or a
memory place (Operand of the sibling operand module, modelled from the spec). -/
inductive Operand where
  | Immediate (v : Value)
  | Indirect (m : MemPlace)

/-- An operand paired with its layout (OpTy, modelled from the spec). -/
structure OpTy where
  op : Operand
  layout : TyLayout

/-- A value paired with its layout (ValTy, modelled from the spec). -/
structure ValTy where
  value : Value
  layout : TyLayout

/-- Modelled from the spec: one stack frame - per-local slots (none is a dead
local) plus the locals' static layouts. -/
structure Frame where
  locals : List (Option Operand)
  localLayouts : List TyLayout

/-- Modelled from the spec: the interpreter state this core mutates - the
memory store and the frame stack. -/
structure State where
  mem : Memory
  stack : List Frame

/-- Modelled from the spec: frame-local slot read access; fails on a missing
frame/local (a panic in the source) or on a dead local. -/
def State.accessLocal (st : State) (frame localIdx : Nat) :
    Except EvalError Operand :=
  match st.stack[frame]? with
  | none => .error .assertFail
  | some f =>
    match f.locals[localIdx]? with
    | none => .error .assertFail
    | some none => .error .deadLocal
    | some (some op) => .ok op

/-- Modelled from the spec: frame-local slot write access (access_mut); fails
on a missing frame/local or on a dead local. -/
def State.setLocal (st : State) (frame localIdx : Nat) (op : Operand) :
    Except EvalError State :=
  match st.stack[frame]? with
  | none => .error .assertFail
  | some f =>
    match f.locals[localIdx]? with
    | none => .error .assertFail
    | some none => .error .deadLocal
    | some (some _) =>
      .ok { st with
              stack := st.stack.set frame
                { f with locals := f.locals.set localIdx (some op) } }

/-- Modelled from the spec: layout_of_local - the local's static layout as
recorded in its frame. -/
def State.layoutOfLocal (st : State) (frame localIdx : Nat) :
    Except EvalError TyLayout :=
  match st.stack[frame]? with
  | none => .error .assertFail
  | some f =>
    match f.localLayouts[localIdx]? with
    | none => .error .assertFail
    | some l => .ok l

/-- A Place with its layout. -/
structure PlaceTy where
  place : Place
  layout : TyLayout

/-- A MemPlace with its layout; the type-level guarantee of memory backing. -/
structure MPlaceTy where
  mplace : MemPlace
  layout : TyLayout

/-- Address of a typed memory place (the Deref impl of the source). -/
def MPlaceTy.ptr (p : MPlaceTy) : Scalar := p.mplace.ptr

/-- Alignment of a typed memory place. -/
def MPlaceTy.align (p : MPlaceTy) : Nat := p.mplace.align

/-- Unsized metadata of a typed memory place. -/
def MPlaceTy.extra (p : MPlaceTy) : PlaceExtra := p.mplace.extra

/-- Conversion of a typed memory place into a typed place (the From impl). -/
def MPlaceTy.toPlaceTy (p : MPlaceTy) : PlaceTy :=
  ⟨.Ptr p.mplace, p.layout⟩

/-- MemPlace::from_scalar_ptr: a sized, no-metadata memory place. -/
def MemPlace.from_scalar_ptr (ptr : Scalar) (align : Nat) : MemPlace :=
  ⟨ptr, align, .None⟩

/-- MemPlace::from_ptr. -/
def MemPlace.from_ptr (p : Pointer) (align : Nat) : MemPlace :=
  MemPlace.from_scalar_ptr (.Ptr p) align

/-- MemPlace::to_scalar_ptr_align: address and alignment, asserting that no
unsized metadata is present. -/
def MemPlace.to_scalar_ptr_align (m : MemPlace) :
    Except EvalError (Scalar × Nat) :=
  if m.extra = .None then .ok (m.ptr, m.align) else .error .assertFail

/-- MPlaceTy::from_aligned_ptr. -/
def MPlaceTy.from_aligned_ptr (p : Pointer) (layout : TyLayout) : MPlaceTy :=
  ⟨MemPlace.from_ptr p layout.align, layout⟩

/-- MPlaceTy::len: the dynamic element count of an array/slice place - the
metadata length if present, else the static count; a bug (panic) on a
non-array layout. -/
def MPlaceTy.len (p : MPlaceTy) : Except EvalError Nat :=
  match p.layout.fields with
  | .Array _ count =>
    match p.mplace.extra with
    | .Length len => .ok len
    | _ => .ok count
  | _ => .error .assertFail

/-- Modelled from the spec: Value::new_slice - an (address, length) scalar
pair, the length as a pointer-sized bits scalar. -/
def Value.new_slice (v : MirPlace.Scalar) (len : Nat) : Value :=
  .ScalarPair (.scalar v) (.scalar (.Bits ptrSize len))

/-- Modelled from the spec: Value::new_dyn_trait - an (address, vtable)
scalar pair. -/
def Value.new_dyn_trait (v : MirPlace.Scalar) (vtable : Pointer) : Value :=
  .ScalarPair (.scalar v) (.scalar (.Ptr vtable))

/-- Modelled from the spec: Value::to_scalar - the single concrete scalar of
a thin value; a bug on a pair, an error on an undefined scalar. -/
def Value.to_scalar : Value → Except EvalError MirPlace.Scalar
  | .Scalar s => s.not_undefined
  | .ScalarPair _ _ => .error .assertFail

/-- Modelled from the spec: Value::to_scalar_slice - the (address, length)
components of a slice fat pointer; the length must be a concrete
pointer-sized bits scalar. -/
def Value.to_scalar_slice : Value → Except EvalError (MirPlace.Scalar × Nat)
  | .ScalarPair p len =>
    match p.not_undefined with
    | .error e => .error e
    | .ok ptr =>
      match len.not_undefined with
      | .error e => .error e
      | .ok lenS =>
        match lenS.to_bits ptrSize with
        | .error e => .error e
        | .ok n => .ok (ptr, n)
  | .Scalar _ => .error .assertFail

/-- Modelled from the spec: Value::to_scalar_dyn_trait - the (address,
vtable) components of a trait-object fat pointer; the vtable must be a
concrete pointer. -/
def Value.to_scalar_dyn_trait : Value → Except EvalError (MirPlace.Scalar × Pointer)
  | .ScalarPair p vt =>
    match p.not_undefined with
    | .error e => .error e
    | .ok ptr =>
      match vt.not_undefined with
      | .error e => .error e
      | .ok vtS =>
        match vtS with
        | .Ptr vp => .ok (ptr, vp)
        | .Bits _ _ => .error .typeMismatch
  | .Scalar _ => .error .assertFail

/-- MemPlace::to_ref: turn a memory place into a (thin or fat) reference
value pointing to the same space - thin scalar without metadata, (address,
length) pair for a slice, (address, vtable) pair for a trait object.  The
alignment of the place is deliberately dropped. -/
def MemPlace.to_ref (m : MemPlace) : Value :=
  match m.extra with
  | .None => .Scalar (.scalar m.ptr)
  | .Length len => Value.new_slice m.ptr len
  | .Vtable vtable => Value.new_dyn_trait m.ptr vtable

/-- ref_to_mplace: take a value that represents a (thin or fat) reference and
make it a memory place.  The pointee type's unsized tail selects the metadata
class; alignment comes from the pointee layout alone. -/
def ref_to_mplace (cx : EvalCtx) (val : ValTy) :
    Except EvalError MPlaceTy :=
  match val.layout.ty with
  | .ref pointee =>
    match cx.layoutOf pointee with
    | .error e => .error e
    | .ok layout =>
      match structTail pointee with
      | .dynTrait _ =>
        match val.value.to_scalar_dyn_trait with
        | .error e => .error e
        | .ok (ptr, vtable) =>
          .ok ⟨⟨ptr, layout.align, .Vtable vtable⟩, layout⟩
      | .str =>
        match val.value.to_scalar_slice with
        | .error e => .error e
        | .ok (ptr, len) => .ok ⟨⟨ptr, layout.align, .Length len⟩, layout⟩
      | .slice _ =>
        match val.value.to_scalar_slice with
        | .error e => .error e
        | .ok (ptr, len) => .ok ⟨⟨ptr, layout.align, .Length len⟩, layout⟩
      | _ =>
        match val.value.to_scalar with
        | .error e => .error e
        | .ok ptr => .ok ⟨⟨ptr, layout.align, .None⟩, layout⟩
  | _ => .error .assertFail

/-- The offset adjustment step of mplace_field: on a trait-object base the
field offset is re-aligned upward to the concrete pointee's runtime
alignment recovered from the vtable; any other base keeps the offset. -/
def adjustOffset (cx : EvalCtx) (extra : PlaceExtra) (offset : Nat) : Nat :=
  match extra with
  | .Vtable tab => abi_align offset (cx.vtableAlign tab)
  | _ => offset

/-- mplace_field: offset a memory place to one of its fields.  Struct layouts
use the precomputed offset table; array/slice layouts use stride*i under a
bounds check against the dynamic length; the offset is then adjusted by
adjustOffset.  Alignment is the min of base and field alignment; metadata is
dropped for sized fields and inherited (and asserted present) for unsized
ones. -/
def mplace_field (cx : EvalCtx) (base : MPlaceTy) (field : Nat) :
    Except EvalError MPlaceTy :=
  match
    (match base.layout.fields with
     | .Arbitrary offsets =>
       match offsets[field]? with
       | some o => Except.ok o
       | none => Except.error EvalError.assertFail
     | .Array stride _ =>
       match base.len with
       | .error e => Except.error e
       | .ok len =>
         if field < len then Except.ok (stride * field)
         else Except.error EvalError.assertFail
     | _ => Except.error EvalError.assertFail) with
  | .error e => .error e
  | .ok offset =>
    match cx.layoutField base.layout field with
    | .error e => .error e
    | .ok fieldLayout =>
      match base.ptr.ptr_offset (adjustOffset cx base.extra offset) with
      | .error e => .error e
      | .ok ptr =>
        match
          (if !fieldLayout.is_unsized then Except.ok PlaceExtra.None
           else if base.extra = PlaceExtra.None then
             Except.error EvalError.assertFail
           else Except.ok base.extra) with
        | .error e => .error e
        | .ok extra =>
          .ok ⟨⟨ptr, min base.align fieldLayout.align, extra⟩, fieldLayout⟩

/-- mplace_subslice: address the middle len-from-to elements of an
array/slice place.  The single bounds guard is the source's
assert!(from <= len - to) with the subtraction performed in wrapping
unsigned 64-bit arithmetic. -/
def mplace_subslice (cx : EvalCtx) (base : MPlaceTy) (fromIdx toIdx : Nat) :
    Except EvalError MPlaceTy :=
  match base.len with
  | .error e => .error e
  | .ok len =>
    if fromIdx ≤ wsub64 len toIdx then
      match base.layout.fields with
      | .Array stride _ =>
        match base.ptr.ptr_offset (stride * fromIdx) with
        | .error e => .error e
        | .ok ptr =>
          match base.layout.ty with
          | .array inner _ =>
            match cx.layoutOf (.array inner (wsub64 (wsub64 len toIdx) fromIdx)) with
            | .error e => .error e
            | .ok layout => .ok ⟨⟨ptr, base.align, .None⟩, layout⟩
          | .slice inner =>
            match cx.layoutOf (.slice inner) with
            | .error e => .error e
            | .ok layout =>
              .ok ⟨⟨ptr, base.align,
                    .Length (wsub64 (wsub64 len toIdx) fromIdx)⟩, layout⟩
          | _ => .error .assertFail
      | _ => .error .assertFail
    else .error .assertFail

/-- mplace_downcast: reinterpret the base under a variant layout; address,
alignment and metadata unchanged, asserting no unsized metadata. -/
def mplace_downcast (cx : EvalCtx) (base : MPlaceTy) (variant : Nat) :
    Except EvalError MPlaceTy :=
  if base.extra = .None then
    .ok ⟨base.mplace, cx.forVariant base.layout variant⟩
  else .error .assertFail

/-- Modelled from the spec: try_read_value - attempt to read an operand as a
register value; an immediate is returned as-is, a memory-resident operand
with scalar or scalar-pair ABI and no metadata is read from memory, anything
else is handed back as a memory place. -/
def try_read_value (st : State) (src : OpTy) :
    Except EvalError (Value ⊕ MemPlace) :=
  match src.op with
  | .Immediate v => .ok (.inl v)
  | .Indirect mplace =>
    if mplace.extra = .None then
      match src.layout.abi with
      | .Scalar _ =>
        .ok (.inl (.Scalar (st.mem.readScalar mplace.ptr src.layout.size)))
      | .ScalarPair a b =>
        match mplace.ptr.ptr_offset (abi_align a.size b.align) with
        | .error e => .error e
        | .ok bPtr =>
          .ok (.inl (.ScalarPair (st.mem.readScalar mplace.ptr a.size)
                                 (st.mem.readScalar bPtr b.size)))
      | _ => .ok (.inr mplace)
    else .ok (.inr mplace)

/-- Modelled from the spec: read_value - read an operand as a register value,
failing when its representation does not fit the register encoding. -/
def read_value (st : State) (op : OpTy) : Except EvalError ValTy :=
  match try_read_value st op with
  | .error e => .error e
  | .ok (.inl v) => .ok ⟨v, op.layout⟩
  | .ok (.inr _) => .error .typeMismatch

/-- Modelled from the spec: read_scalar - read an operand as a single
(possibly uninitialized) scalar. -/
def read_scalar_op (st : State) (op : OpTy) :
    Except EvalError ScalarMaybeUndefined :=
  match read_value st op with
  | .error e => .error e
  | .ok v =>
    match v.value with
    | .Scalar s => .ok s
    | .ScalarPair _ _ => .error .assertFail

/-- Modelled from the spec: deref_operand - read a reference value out of an
operand and convert it to a place (one pointer indirection). -/
def deref_operand (cx : EvalCtx) (st : State) (op : OpTy) :
    Except EvalError MPlaceTy :=
  match read_value st op with
  | .error e => .error e
  | .ok val => ref_to_mplace cx val

/-- One projection step of an IR place expression. -/
inductive PlaceElem where
  | Field (i : Nat)
  | Downcast (variant : Nat)
  | Deref
  | Index (localIdx : Nat)
  | ConstantIndex (offset : Nat) (min_length : Nat) (from_end : Bool)
  | Subslice (fromIdx : Nat) (toIdx : Nat)

/-- mplace_projection: project one step into a memory place.  ConstantIndex
resolves the index against the dynamic length (asserted at least min_length),
counting from the end as n - offset when from_end is set (wrapping 64-bit
subtraction in the source), and delegates to mplace_field. -/
def mplace_projection (cx : EvalCtx) (st : State) (base : MPlaceTy)
    (elem : PlaceElem) : Except EvalError MPlaceTy :=
  match elem with
  | .Field i => mplace_field cx base i
  | .Downcast variant => mplace_downcast cx base variant
  | .Deref => deref_operand cx st ⟨.Indirect base.mplace, base.layout⟩
  | .Index localIdx =>
    match st.stack.getLast? with
    | none => .error .assertFail
    | some f =>
      match f.locals[localIdx]? with
      | none => .error .assertFail
      | some none => .error .deadLocal
      | some (some nOp) =>
        match cx.layoutOf .usize with
        | .error e => .error e
        | .ok nLayout =>
          match read_scalar_op st ⟨nOp, nLayout⟩ with
          | .error e => .error e
          | .ok sv =>
            match sv.not_undefined with
            | .error e => .error e
            | .ok s =>
              match s.to_bits ptrSize with
              | .error e => .error e
              | .ok n => mplace_field cx base n
  | .ConstantIndex offset min_length from_end =>
    match base.len with
    | .error e => .error e
    | .ok n =>
      if min_length ≤ n then
        mplace_field cx base (if from_end then wsub64 n offset else offset)
      else .error .assertFail
  | .Subslice fromIdx toIdx => mplace_subslice cx base fromIdx toIdx

/-- write_value_to_mplace: the typed memory write.  The destination must
carry no unsized metadata; a single scalar is written at the destination
address with the destination layout's size; a scalar pair writes the first
component at offset 0 and the second at abi_align(size_of(first),
align_of(second)), requiring a scalar-pair ABI. -/
def write_value_to_mplace (st : State) (value : Value) (dest : MPlaceTy) :
    Except EvalError Unit × State :=
  if dest.extra = .None then
    match value with
    | .Scalar scalar =>
      (.ok (),
       { st with mem := st.mem.writeScalar dest.ptr scalar dest.layout.size })
    | .ScalarPair aVal bVal =>
      match dest.layout.abi with
      | .ScalarPair a b =>
        match dest.ptr.ptr_offset (abi_align a.size b.align) with
        | .error e => (.error e, st)
        | .ok bPtr =>
          (.ok (),
           { st with mem := (st.mem.writeScalar dest.ptr aVal a.size).writeScalar
                              bPtr bVal b.size })
      | _ => (.error .assertFail, st)
  else (.error .assertFail, st)

/-- allocate: fresh memory for a statically sized layout; fails (a panic in
the source) on an unsized layout. -/
def allocate (st : State) (layout : TyLayout) (kind : MemoryKind) :
    Except EvalError MPlaceTy × State :=
  if layout.is_unsized then (.error .assertFail, st)
  else
    match st.mem.allocate layout.size layout.align kind with
    | (p, mem') =>
      (.ok (MPlaceTy.from_aligned_ptr p layout), { st with mem := mem' })

/-- allocate_op: make a place for an operand - an indirect operand is
returned as-is, an immediate is spilled into a fresh stack allocation. -/
def allocate_op (st : State) (op : OpTy) : Except EvalError MPlaceTy × State :=
  match op.op with
  | .Indirect mplace => (.ok ⟨mplace, op.layout⟩, st)
  | .Immediate value =>
    match allocate st op.layout .Stack with
    | (.error e, st') => (.error e, st')
    | (.ok ptr, st') =>
      match write_value_to_mplace st' value ptr with
      | (.error e, st'') => (.error e, st'')
      | (.ok _, st'') => (.ok ptr, st'')

/-- force_allocation: make sure a place is in memory.  A memory place is
returned unchanged; a local is materialized using the local's static layout
(never the possibly-downcast layout of the place), its slot permanently
rewritten to indirect, and the returned place keeps the caller's original
layout. -/
def force_allocation (st : State) (place : PlaceTy) :
    Except EvalError MPlaceTy × State :=
  match place.place with
  | .Local frame localIdx =>
    match st.layoutOfLocal frame localIdx with
    | .error e => (.error e, st)
    | .ok localLayout =>
      match st.accessLocal frame localIdx with
      | .error e => (.error e, st)
      | .ok rval =>
        match allocate_op st ⟨rval, localLayout⟩ with
        | (.error e, st') => (.error e, st')
        | (.ok mp, st') =>
          match st'.setLocal frame localIdx (.Indirect mp.mplace) with
          | .error e => (.error e, st')
          | .ok st'' => (.ok ⟨mp.mplace, place.layout⟩, st'')
  | .Ptr mplace => (.ok ⟨mplace, place.layout⟩, st)

/-- write_value: write a register value to a place.  Fast path - a
register-resident local is overwritten directly, no memory touched; slow
path - the destination is forced into memory and written there. -/
def write_value (st : State) (srcVal : Value) (dest : PlaceTy) :
    Except EvalError Unit × State :=
  match
    (match dest.place with
     | .Local frame localIdx =>
       match st.accessLocal frame localIdx with
       | .error e => Except.error e
       | .ok (.Immediate _) => Except.ok true
       | .ok (.Indirect _) => Except.ok false
     | .Ptr _ => Except.ok false) with
  | .error e => (.error e, st)
  | .ok true =>
    match dest.place with
    | .Local frame localIdx =>
      match st.setLocal frame localIdx (.Immediate srcVal) with
      | .error e => (.error e, st)
      | .ok st' => (.ok (), st')
    | .Ptr _ => (.error .assertFail, st)
  | .ok false =>
    match force_allocation st dest with
    | (.error e, st') => (.error e, st')
    | (.ok dmp, st') => write_value_to_mplace st' srcVal dmp

/-- write_scalar_place: write a single scalar to a place (write_scalar of the
source, renamed to avoid clashing with the memory primitive). -/
def write_scalar_place (st : State) (val : ScalarMaybeUndefined) (dest : PlaceTy) :
    Except EvalError Unit × State :=
  write_value st (.Scalar val) dest

/-- place_field: the place of a field inside a place - forces allocation and
projects with mplace_field. -/
def place_field (cx : EvalCtx) (st : State) (base : PlaceTy) (field : Nat) :
    Except EvalError PlaceTy × State :=
  match force_allocation st base with
  | (.error e, st') => (.error e, st')
  | (.ok mplace, st') =>
    match mplace_field cx mplace field with
    | .error e => (.error e, st')
    | .ok r => (.ok r.toPlaceTy, st')

/-- copy_op: copy the data from an operand to a place.  Equal byte sizes are
asserted before anything else; then either the source fits a register value
and write_value runs, or a raw byte copy of exactly size bytes is performed
between the memory-resident source and the forced destination. -/
def copy_op (st : State) (src : OpTy) (dest : PlaceTy) :
    Except EvalError Unit × State :=
  if src.layout.size = dest.layout.size then
    match try_read_value st src with
    | .error e => (.error e, st)
    | .ok (.inl srcVal) => write_value st srcVal dest
    | .ok (.inr mplace) =>
      match mplace.to_scalar_ptr_align with
      | .error e => (.error e, st)
      | .ok (srcPtr, _) =>
        match force_allocation st dest with
        | (.error e, st') => (.error e, st')
        | (.ok dmp, st') =>
          match dmp.mplace.to_scalar_ptr_align with
          | .error e => (.error e, st')
          | .ok (destPtr, _) =>
            (.ok (),
             { st' with mem := st'.mem.copyBytes srcPtr destPtr src.layout.size })
  else (.error .assertFail, st)

/-- write_discriminant_value: encode which variant a sum-type place holds,
per the destination's variant-encoding strategy.  Single - a defensive
uninhabitedness assertion only; Tagged - the raw discriminant is narrowed by
shifting within 128 bits and written into field 0 with the tag's byte size;
NicheFilling - non-dataful variants write niche_start + (variant -
first_niche_variant) (wrapping) into field 0, the dataful variant writes
nothing. -/
def write_discriminant_value (cx : EvalCtx) (st : State) (variant_index : Nat)
    (dest : PlaceTy) : Except EvalError Unit × State :=
  match dest.layout.variants with
  | .Single index =>
    if index ≠ variant_index then
      if (cx.forVariant dest.layout variant_index).abi = Abi.Uninhabited then
        (.ok (), st)
      else (.error .assertFail, st)
    else (.ok (), st)
  | .Tagged tag =>
    match dest.layout.ty with
    | .adt _ _ =>
      match place_field cx st dest 0 with
      | (.error e, st') => (.error e, st')
      | (.ok discrDest, st') =>
        write_scalar_place st'
          (.scalar (.Bits tag.size
            (((cx.discriminantFor dest.layout.ty variant_index <<<
                 (128 - 8 * tag.size)) % 2 ^ 128) >>> (128 - 8 * tag.size))))
          discrDest
    | _ => (.error .assertFail, st)
  | .NicheFilling dataful_variant niche_variants_start niche_start =>
    if variant_index ≠ dataful_variant then
      match place_field cx st dest 0 with
      | (.error e, st') => (.error e, st')
      | (.ok nicheDest, st') =>
        write_scalar_place st'
          (.scalar (.Bits nicheDest.layout.size
            ((wsub64 variant_index niche_variants_start + niche_start) % 2 ^ 128)))
          nicheDest
    else (.ok (), st)

/-! Concrete layouts and a concrete evaluation context, used by the
closed-instance theorems below.  The layout facts mirror the x86-64 layouts
the layout provider would compute for the corresponding Rust types. -/

/-- Layout of u8. -/
def u8Layout : TyLayout :=
  ⟨.prim 8, 1, 1, .Scalar (.Int 1 false), .Union 0, .Single 0⟩

/-- Layout of i8 (the tag field of the demo tagged enum). -/
def i8Layout : TyLayout :=
  ⟨.prim 108, 1, 1, .Scalar (.Int 1 true), .Union 0, .Single 0⟩

/-- Layout of u32. -/
def u32Layout : TyLayout :=
  ⟨.prim 32, 4, 4, .Scalar (.Int 4 false), .Union 0, .Single 0⟩

/-- Layout of i32. -/
def i32Layout : TyLayout :=
  ⟨.prim 132, 4, 4, .Scalar (.Int 4 true), .Union 0, .Single 0⟩

/-- Layout of i64. -/
def i64Layout : TyLayout :=
  ⟨.prim 164, 8, 8, .Scalar (.Int 8 true), .Union 0, .Single 0⟩

/-- Layout of usize. -/
def usizeLayout : TyLayout :=
  ⟨.usize, 8, 8, .Scalar (.Int 8 false), .Union 0, .Single 0⟩

/-- The demo two-field struct type {a: i32, b: i64}. -/
def pairTy : Ty := .adt 1 [.prim 132, .prim 164]

/-- Layout of the demo struct {a: i32 at offset 0, b: i64 at offset 8} with
scalar-pair ABI. -/
def pairLayout : TyLayout :=
  ⟨pairTy, 16, 8, .ScalarPair (.Int 4 true) (.Int 8 true),
   .Arbitrary [0, 8], .Single 0⟩

/-- Layout of the slice type [u32] (unsized; stride 4, static count 0). -/
def sliceU32Layout : TyLayout :=
  ⟨.slice (.prim 32), 0, 4, .Aggregate false, .Array 4 0, .Single 0⟩

/-- Layout of a trait object dyn type (unsized, statically align 1). -/
def dynLayout : TyLayout :=
  ⟨.dynTrait 0, 0, 1, .Aggregate false, .Union 0, .Single 0⟩

/-- The demo dyn-tailed struct type {a: u8, tail: dyn}. -/
def dynStructTy : Ty := .adt 2 [.prim 8, .dynTrait 0]

/-- Layout of the demo dyn-tailed struct: field offsets [0, 1], unsized. -/
def dynStructLayout : TyLayout :=
  ⟨dynStructTy, 1, 1, .Aggregate false, .Arbitrary [0, 1], .Single 0⟩

/-- The demo tagged enum type. -/
def taggedEnumTy : Ty := .adt 3 []

/-- Layout of the demo tagged enum: one-byte signed tag in field 0. -/
def taggedEnumLayout : TyLayout :=
  ⟨taggedEnumTy, 1, 1, .Scalar (.Int 1 true), .Arbitrary [0], .Tagged (.Int 1 true)⟩

/-- The demo niche-filling enum type. -/
def nicheEnumTy : Ty := .adt 4 []

/-- Layout of the demo niche-filling enum: dataful variant 0, first niche
variant 1, niche start 0, one-byte niche in field 0. -/
def nicheEnumLayout : TyLayout :=
  ⟨nicheEnumTy, 1, 1, .Scalar (.Int 1 false), .Arbitrary [0],
   .NicheFilling 0 1 0⟩

/-- Layout of a thin reference type &u32. -/
def refU32Layout : TyLayout :=
  ⟨.ref (.prim 32), 8, 8, .Scalar .Pointer, .Union 0, .Single 0⟩

/-- Layout of the slice fat-pointer type &[u32]. -/
def refSliceLayout : TyLayout :=
  ⟨.ref (.slice (.prim 32)), 16, 8, .ScalarPair .Pointer (.Int 8 false),
   .Union 0, .Single 0⟩

/-- Layout of the trait-object fat-pointer type &dyn. -/
def refDynLayout : TyLayout :=
  ⟨.ref (.dynTrait 0), 16, 8, .ScalarPair .Pointer .Pointer,
   .Union 0, .Single 0⟩

/-- The concrete demo evaluation context: a layout provider for the demo
types, per-field layout lookup, identity for_variant (enough for the demo
enums, whose variant layouts are not consulted by the claims), a
discriminant table giving the demo tagged enum the signed discriminants
-2 + k in 128-bit two's complement, and a vtable whose recoverable runtime
alignment is 8 for vtable allocation 5 and 1 otherwise. -/
def demoCx : EvalCtx where
  layoutOf := fun t =>
    match t with
    | .prim 8 => .ok u8Layout
    | .prim 108 => .ok i8Layout
    | .prim 32 => .ok u32Layout
    | .prim 132 => .ok i32Layout
    | .prim 164 => .ok i64Layout
    | .usize => .ok usizeLayout
    | .slice (.prim 32) => .ok sliceU32Layout
    | .array (.prim 32) n =>
      .ok ⟨.array (.prim 32) n, 4 * n, 4, .Aggregate true, .Array 4 n,
           .Single 0⟩
    | .dynTrait 0 => .ok dynLayout
    | .adt 1 _ => .ok pairLayout
    | .adt 2 _ => .ok dynStructLayout
    | .adt 3 _ => .ok taggedEnumLayout
    | .adt 4 _ => .ok nicheEnumLayout
    | _ => .error .layoutErr
  layoutField := fun l i =>
    match l.ty, i with
    | .adt 1 _, 0 => .ok i32Layout
    | .adt 1 _, 1 => .ok i64Layout
    | .adt 2 _, 0 => .ok u8Layout
    | .adt 2 _, 1 => .ok dynLayout
    | .adt 3 _, 0 => .ok i8Layout
    | .adt 4 _, 0 => .ok u8Layout
    | .slice (.prim 32), _ => .ok u32Layout
    | .array (.prim 32) _, _ => .ok u32Layout
    | _, _ => .error .layoutErr
  forVariant := fun l _ => l
  discriminantFor := fun t k =>
    match t with
    | .adt 3 _ => (2 ^ 128 - 2 + k) % 2 ^ 128
    | _ => k
  vtableAlign := fun p => if p.allocId = 5 then 8 else 1

/-- The empty demo memory. -/
def emptyMem : Memory := ⟨[], [], []⟩

/-- A demo state with no frames. -/
def demoSt : State := ⟨emptyMem, []⟩

/-- The demo slice base place: a [u32] place of dynamic length 5 at
allocation 2, offset 0, alignment 4. -/
def sliceBase5 : MPlaceTy :=
  ⟨⟨.Ptr ⟨2, 0⟩, 4, .Length 5⟩, sliceU32Layout⟩

/-- The demo dyn-tailed struct base place, carrying vtable metadata whose
recoverable runtime alignment is 8. -/
def dynBase : MPlaceTy :=
  ⟨⟨.Ptr ⟨0, 0⟩, 8, .Vtable ⟨5, 0⟩⟩, dynStructLayout⟩

/-- The demo destination place of the struct {a: i32 at 0, b: i64 at 8} at
allocation 0, offset 0. -/
def demoPairDest : PlaceTy := ⟨.Ptr ⟨.Ptr ⟨0, 0⟩, 8, .None⟩, pairLayout⟩

/-- The demo state after writing Value::ScalarPair(7, 9) to demoPairDest. -/
def demoPairState : State :=
  { demoSt with
      mem := ((demoSt.mem.writeScalar (.Ptr ⟨0, 0⟩) (.scalar (.Bits 4 7)) 4).writeScalar
                (.Ptr ⟨0, 8⟩) (.scalar (.Bits 8 9)) 8) }

/-! Helper lemmas about the modelled collaborators. -/

/-- Wrapping 64-bit subtraction agrees with Nat subtraction when it does not
wrap. -/
theorem wsub64_of_le {a b : Nat} (h : b ≤ a) : wsub64 a b = a - b := by
  simp [wsub64, h]

/-- Reading back a just-written scalar at the same address and size yields
the written (truncated) scalar. -/
theorem readScalar_writeScalar (m : Memory) (p : Scalar) (v : ScalarMaybeUndefined)
    (s : Nat) : (m.writeScalar p v s).readScalar p s = truncScalar v s := by
  unfold Memory.writeScalar Memory.readScalar
  rw [List.find?_cons_of_pos]
  simp

/-- A scalar write leaves the allocation log unchanged. -/
theorem writeScalar_allocs (m : Memory) (p : Scalar) (v : ScalarMaybeUndefined)
    (s : Nat) : (m.writeScalar p v s).allocs = m.allocs := rfl

/-- Inversion for Value::to_scalar: success pins the value to a thin concrete
scalar. -/
theorem to_scalar_ok {v : Value} {s : Scalar} (h : v.to_scalar = .ok s) :
    v = .Scalar (.scalar s) := by
  cases v with
  | Scalar sv =>
    cases sv with
    | scalar s0 => simp [Value.to_scalar, ScalarMaybeUndefined.not_undefined] at h; rw [h]
    | undefined => simp [Value.to_scalar, ScalarMaybeUndefined.not_undefined] at h
  | ScalarPair a b => simp [Value.to_scalar] at h

/-- Inversion for Value::to_scalar_slice: success pins the value to an
(address, pointer-sized length bits) pair. -/
theorem to_scalar_slice_ok {v : Value} {p : Scalar} {n : Nat}
    (h : v.to_scalar_slice = .ok (p, n)) :
    v = .ScalarPair (.scalar p) (.scalar (.Bits ptrSize n)) := by
  cases v with
  | Scalar sv => simp [Value.to_scalar_slice] at h
  | ScalarPair a b =>
    cases a with
    | undefined => simp [Value.to_scalar_slice, ScalarMaybeUndefined.not_undefined] at h
    | scalar pa =>
      cases b with
      | undefined => simp [Value.to_scalar_slice, ScalarMaybeUndefined.not_undefined] at h
      | scalar pb =>
        cases pb with
        | Ptr q => simp [Value.to_scalar_slice, ScalarMaybeUndefined.not_undefined,
                          Scalar.to_bits] at h
        | Bits sz bits =>
          by_cases hsz : sz = ptrSize
          · simp [Value.to_scalar_slice, ScalarMaybeUndefined.not_undefined,
                  Scalar.to_bits, hsz] at h
            rw [h.1, ← h.2, hsz]
          · simp [Value.to_scalar_slice, ScalarMaybeUndefined.not_undefined,
                  Scalar.to_bits, hsz] at h

/-- Inversion for Value::to_scalar_dyn_trait: success pins the value to an
(address, vtable pointer) pair. -/
theorem to_scalar_dyn_trait_ok {v : Value} {p : Scalar} {vt : Pointer}
    (h : v.to_scalar_dyn_trait = .ok (p, vt)) :
    v = .ScalarPair (.scalar p) (.scalar (.Ptr vt)) := by
  cases v with
  | Scalar sv => simp [Value.to_scalar_dyn_trait] at h
  | ScalarPair a b =>
    cases a with
    | undefined => simp [Value.to_scalar_dyn_trait, ScalarMaybeUndefined.not_undefined] at h
    | scalar pa =>
      cases b with
      | undefined => simp [Value.to_scalar_dyn_trait, ScalarMaybeUndefined.not_undefined] at h
      | scalar pb =>
        cases pb with
        | Bits sz bits =>
          simp [Value.to_scalar_dyn_trait, ScalarMaybeUndefined.not_undefined] at h
        | Ptr q =>
          simp [Value.to_scalar_dyn_trait, ScalarMaybeUndefined.not_undefined] at h
          rw [h.1, h.2]

/-- Shift-based narrowing within 128 bits equals taking the value modulo the
target width. -/
theorem shift_narrow (d b : Nat) (hb : b ≤ 128) :
    ((d <<< (128 - b)) % 2 ^ 128) >>> (128 - b) = d % 2 ^ b := by
  rw [Nat.shiftLeft_eq, Nat.shiftRight_eq_div_pow]
  have h2 : (2 : Nat) ^ 128 = 2 ^ b * 2 ^ (128 - b) := by
    rw [← pow_add]; congr 1; omega
  rw [h2, Nat.mul_mod_mul_right,
      Nat.mul_div_cancel _ (Nat.pos_pow_of_pos _ (by norm_num))]

/-- place_field on a memory-backed place forces nothing: it projects with
mplace_field and keeps the state. -/
theorem place_field_ptr (cx : EvalCtx) (st : State) (m : MemPlace)
    (lay : TyLayout) (field : Nat) (r : MPlaceTy)
    (h : mplace_field cx ⟨m, lay⟩ field = .ok r) :
    place_field cx st ⟨.Ptr m, lay⟩ field = (.ok r.toPlaceTy, st) := by
  unfold place_field force_allocation
  simp [h]

/-- Computation lemma for mplace_field at a struct (offset-table) base
carrying no metadata: the field place sits at base + o_i with min alignment
and, for a sized field, no metadata. -/
theorem mplace_field_arbitrary (cx : EvalCtx) (m : MemPlace) (lay : TyLayout)
    (field : Nat) (offs : List Nat) (o0 : Nat) (fl : TyLayout) (np : Scalar)
    (hfields : lay.fields = .Arbitrary offs) (ho : offs[field]? = some o0)
    (hfl : cx.layoutField lay field = .ok fl) (hext : m.extra = .None)
    (hp : m.ptr.ptr_offset o0 = .ok np) (hsized : fl.is_unsized = false) :
    mplace_field cx ⟨m, lay⟩ field =
      .ok ⟨⟨np, min m.align fl.align, .None⟩, fl⟩ := by
  unfold mplace_field
  simp [MPlaceTy.extra, MPlaceTy.ptr, MPlaceTy.align, adjustOffset,
        hfields, ho, hfl, hext, hp, hsized]

/-- Writing a single scalar through a memory-backed, metadata-free place
appends one scalar write of the layout's size at the place's address. -/
theorem write_scalar_place_ptr (st : State) (v : ScalarMaybeUndefined)
    (m : MemPlace) (lay : TyLayout) (hext : m.extra = .None) :
    write_scalar_place st v ⟨.Ptr m, lay⟩ =
      (.ok (), { st with mem := st.mem.writeScalar m.ptr v lay.size }) := by
  unfold write_scalar_place write_value force_allocation write_value_to_mplace
  simp [MPlaceTy.extra, MPlaceTy.ptr, hext]

/-- A successful slot update leaves the memory untouched. -/
theorem setLocal_ok_mem {st st' : State} {f l : Nat} {op : Operand}
    (h : st.setLocal f l op = .ok st') : st'.mem = st.mem := by
  unfold State.setLocal at h
  split at h
  next => exact absurd h (by simp)
  next F hF =>
    split at h
    next => exact absurd h (by simp)
    next => exact absurd h (by simp)
    next x hx =>
      cases h
      rfl

/-- Reading a slot right after a successful update yields the new operand. -/
theorem setLocal_ok_access {st st' : State} {f l : Nat} {op : Operand}
    (h : st.setLocal f l op = .ok st') : st'.accessLocal f l = .ok op := by
  unfold State.setLocal at h
  split at h
  next => exact absurd h (by simp)
  next F hF =>
    split at h
    next => exact absurd h (by simp)
    next => exact absurd h (by simp)
    next x hx =>
      cases h
      have hfl : f < st.stack.length := (List.getElem?_eq_some.mp hF).1
      have hll : l < F.locals.length := (List.getElem?_eq_some.mp hx).1
      unfold State.accessLocal
      rw [show (State.mk st.mem
            (st.stack.set f { F with locals := F.locals.set l (some op) })).stack
          = st.stack.set f { F with locals := F.locals.set l (some op) } from rfl]
      rw [List.getElem?_set_eq_of_lt _ hfl]
      simp [List.getElem?_set_eq_of_lt _ hll]

/-- A successful slot update does not change the local's recorded layout. -/
theorem setLocal_ok_layout {st st' : State} {f l : Nat} {op : Operand}
    (h : st.setLocal f l op = .ok st') :
    st'.layoutOfLocal f l = st.layoutOfLocal f l := by
  unfold State.setLocal at h
  split at h
  next => exact absurd h (by simp)
  next F hF =>
    split at h
    next => exact absurd h (by simp)
    next => exact absurd h (by simp)
    next x hx =>
      cases h
      have hfl : f < st.stack.length := (List.getElem?_eq_some.mp hF).1
      unfold State.layoutOfLocal
      rw [show (State.mk st.mem
            (st.stack.set f { F with locals := F.locals.set l (some op) })).stack
          = st.stack.set f { F with locals := F.locals.set l (some op) } from rfl]
      rw [List.getElem?_set_eq_of_lt _ hfl, hF]

/-- A successful slot read pins down the frame and slot contents. -/
theorem accessLocal_ok_elim {st : State} {f l : Nat} {op : Operand}
    (h : st.accessLocal f l = .ok op) :
    ∃ F, st.stack[f]? = some F ∧ F.locals[l]? = some (some op) := by
  unfold State.accessLocal at h
  split at h
  next => exact absurd h (by simp)
  next F hF =>
    split at h
    next => exact absurd h (by simp)
    next => exact absurd h (by simp)
    next x hx =>
      refine ⟨F, hF, ?_⟩
      have hxo : x = op := by simpa using h
      rw [hx, hxo]

/-- The typed memory write touches neither the allocation log nor the frame
stack, on success and on failure alike. -/
theorem write_value_to_mplace_preserves (st : State) (v : Value)
    (d : MPlaceTy) :
    (write_value_to_mplace st v d).2.mem.allocs = st.mem.allocs ∧
    (write_value_to_mplace st v d).2.stack = st.stack := by
  unfold write_value_to_mplace
  repeat' split
  all_goals exact ⟨rfl, rfl⟩

/-- Inversion for allocate_op: an indirect operand is returned in place with
nothing allocated, an immediate operand is spilled into one fresh stack
allocation sized and aligned per the operand's layout; the frame stack is
never touched. -/
theorem allocate_op_ok {st st' : State} {op : OpTy} {mp : MPlaceTy}
    (h : allocate_op st op = (.ok mp, st')) :
    st'.stack = st.stack ∧ mp.layout = op.layout ∧
    (∀ m0, op.op = .Indirect m0 → mp.mplace = m0 ∧ st' = st) ∧
    (∀ v, op.op = .Immediate v →
       st'.mem.allocs = st.mem.allocs ++
         [(op.layout.size, op.layout.align, .Stack)] ∧
       mp.mplace = ⟨.Ptr ⟨st.mem.allocs.length, 0⟩, op.layout.align, .None⟩) := by
  unfold allocate_op at h
  split at h
  next m0 hop =>
    cases h
    refine ⟨rfl, rfl, ?_, ?_⟩
    · intro m1 hop1
      rw [hop] at hop1
      cases hop1
      exact ⟨rfl, rfl⟩
    · intro v hop1
      rw [hop] at hop1
      cases hop1
  next v hop =>
    split at h
    next e stX heqA => exact absurd h (by simp)
    next ptr stX heqA =>
      split at h
      next e stY heqW => exact absurd h (by simp)
      next u stY heqW =>
        injection h with hh1 hh2
        injection hh1 with hh1
        subst hh1
        subst hh2
        unfold allocate at heqA
        split at heqA
        next hus => exact absurd heqA (by simp)
        next hus =>
          dsimp only [Memory.allocate] at heqA
          injection heqA with hA1 hA2
          injection hA1 with hA1
          subst hA1
          subst hA2
          have hwp := write_value_to_mplace_preserves
            { st with mem := { st.mem with
                allocs := st.mem.allocs ++
                  [(op.layout.size, op.layout.align, .Stack)] } } v
            (MPlaceTy.from_aligned_ptr ⟨st.mem.allocs.length, 0⟩ op.layout)
          rw [heqW] at hwp
          dsimp only at hwp
          obtain ⟨hwa, hws⟩ := hwp
          refine ⟨by simpa using hws, rfl, ?_, ?_⟩
          · intro m0 hop1
            rw [hop] at hop1
            cases hop1
          · intro v1 hop1
            rw [hop] at hop1
            cases hop1
            exact ⟨by simpa using hwa, rfl⟩

/-- Inversion for force_allocation on a local place: the returned place
keeps the caller's (possibly downcast) layout, the slot afterwards holds
exactly the returned memory place, the local's recorded layout is untouched;
a register-resident (Immediate) slot is materialized into one fresh stack
allocation sized and aligned per the local's static layout, while a
memory-resident (Indirect) slot is returned unchanged with no memory
effect. -/
theorem force_allocation_local_ok {st st1 : State} {pl : PlaceTy}
    {f l : Nat} {mp1 : MPlaceTy} (hpl : pl.place = .Local f l)
    (h : force_allocation st pl = (.ok mp1, st1)) :
    mp1.layout = pl.layout ∧
    st1.accessLocal f l = .ok (.Indirect mp1.mplace) ∧
    st1.layoutOfLocal f l = st.layoutOfLocal f l ∧
    (∀ F v L, st.stack[f]? = some F →
       F.locals[l]? = some (some (.Immediate v)) →
       st.layoutOfLocal f l = .ok L →
       st1.mem.allocs = st.mem.allocs ++ [(L.size, L.align, .Stack)] ∧
       mp1.mplace.ptr = .Ptr ⟨st.mem.allocs.length, 0⟩ ∧
       mp1.mplace.align = L.align) ∧
    (∀ F m0, st.stack[f]? = some F →
       F.locals[l]? = some (some (.Indirect m0)) →
       mp1.mplace = m0 ∧ st1.mem = st.mem) := by
  unfold force_allocation at h
  simp only [hpl] at h
  split at h
  next e hL => exact absurd h (by simp)
  next L0 hL0 =>
    split at h
    next e hacc => exact absurd h (by simp)
    next rval hacc =>
      split at h
      next e stX heqA => exact absurd h (by simp)
      next mpX stX heqA =>
        split at h
        next e hset => exact absurd h (by simp)
        next stY hset =>
          injection h with hh1 hh2
          injection hh1 with hh1
          subst hh1
          subst hh2
          obtain ⟨hstk, hmplay, hInd, hImm⟩ := allocate_op_ok heqA
          refine ⟨rfl, ?_, ?_, ?_, ?_⟩
          · exact setLocal_ok_access hset
          · rw [setLocal_ok_layout hset]
            unfold State.layoutOfLocal
            rw [hstk]
          · intro F v L hF hFl hLay
            have hrv : rval = .Immediate v := by
              unfold State.accessLocal at hacc
              rw [hF] at hacc
              simp only [hFl] at hacc
              simpa using hacc.symm
            obtain ⟨hal, hmp⟩ := hImm v (by rw [hrv])
            have hLL : L = L0 := by
              rw [hLay] at hL0
              simpa using hL0
            subst hLL
            rw [setLocal_ok_mem hset]
            refine ⟨by simpa using hal, ?_, ?_⟩
            · rw [hmp]
            · rw [hmp]
          · intro F m0 hF hFl
            have hrv : rval = .Indirect m0 := by
              unfold State.accessLocal at hacc
              rw [hF] at hacc
              simp only [hFl] at hacc
              simpa using hacc.symm
            obtain ⟨hmp, hstX⟩ := hInd m0 (by rw [hrv])
            rw [setLocal_ok_mem hset]
            exact ⟨by rw [hmp], by rw [hstX]⟩

/-! Claim theorems. -/

/-- C9: for every source operand and destination place whose layouts have
unequal byte sizes, copy_op fails before touching any memory - the size
equality assertion runs before any read, write, allocation or byte copy, so
the returned state is exactly the input state. -/
theorem copy_op_size_mismatch_fails_first (st : State) (src : OpTy)
    (dest : PlaceTy) (h : src.layout.size ≠ dest.layout.size) :
    copy_op st src dest = (.error .assertFail, st) := by
  unfold copy_op
  simp [h]

/-- Witness for C9 at a concrete input: copying a u8-sized operand into a
u32-sized destination fails with the state unchanged. -/
theorem copy_op_size_mismatch_fails_first_witness :
    copy_op demoSt ⟨.Immediate (.Scalar .undefined), u8Layout⟩
        ⟨.Ptr ⟨.Ptr ⟨0, 0⟩, 4, .None⟩, u32Layout⟩ =
      (.error .assertFail, demoSt) :=
  copy_op_size_mismatch_fails_first demoSt
    ⟨.Immediate (.Scalar .undefined), u8Layout⟩
    ⟨.Ptr ⟨.Ptr ⟨0, 0⟩, 4, .None⟩, u32Layout⟩ (by decide)

/-- C2: for every reference value of pointer type, in each of the three
metadata classes, converting it to a memory place with ref_to_mplace and
converting that place back with to_ref yields the value again - the
round-trip is lossless for metadata. -/
theorem ref_to_mplace_to_ref_roundtrip (cx : EvalCtx) (val : ValTy)
    (mp : MPlaceTy) (h : ref_to_mplace cx val = .ok mp) :
    mp.mplace.to_ref = val.value := by
  unfold ref_to_mplace at h
  split at h
  next pointee =>
    split at h
    next e he => exact absurd h (by simp)
    next layout hl =>
      split at h
      next id htail =>
        split at h
        next e he => exact absurd h (by simp)
        next ptr vtable hd =>
          cases h
          rw [to_scalar_dyn_trait_ok hd]
          rfl
      next htail =>
        split at h
        next e he => exact absurd h (by simp)
        next ptr len hs =>
          cases h
          rw [to_scalar_slice_ok hs]
          rfl
      next elemTy htail =>
        split at h
        next e he => exact absurd h (by simp)
        next ptr len hs =>
          cases h
          rw [to_scalar_slice_ok hs]
          rfl
      next h1 h2 h3 =>
        split at h
        next e he => exact absurd h (by simp)
        next ptr hs =>
          cases h
          rw [to_scalar_ok hs]
          rfl
  next => exact absurd h (by simp)

/-- Witness for C2 at concrete inputs of all three metadata classes: a thin
reference to u32, a slice fat pointer and a trait-object fat pointer all
round-trip. -/
theorem ref_to_mplace_to_ref_roundtrip_witness :
    (MPlaceTy.mplace ⟨⟨.Ptr ⟨1, 0⟩, 4, .None⟩, u32Layout⟩).to_ref =
        ValTy.value ⟨.Scalar (.scalar (.Ptr ⟨1, 0⟩)), refU32Layout⟩ ∧
    (MPlaceTy.mplace ⟨⟨.Ptr ⟨2, 0⟩, 4, .Length 5⟩, sliceU32Layout⟩).to_ref =
        ValTy.value ⟨.ScalarPair (.scalar (.Ptr ⟨2, 0⟩))
          (.scalar (.Bits ptrSize 5)), refSliceLayout⟩ ∧
    (MPlaceTy.mplace ⟨⟨.Ptr ⟨3, 0⟩, 1, .Vtable ⟨5, 0⟩⟩, dynLayout⟩).to_ref =
        ValTy.value ⟨.ScalarPair (.scalar (.Ptr ⟨3, 0⟩))
          (.scalar (.Ptr ⟨5, 0⟩)), refDynLayout⟩ :=
  ⟨ref_to_mplace_to_ref_roundtrip demoCx
      ⟨.Scalar (.scalar (.Ptr ⟨1, 0⟩)), refU32Layout⟩
      ⟨⟨.Ptr ⟨1, 0⟩, 4, .None⟩, u32Layout⟩ rfl,
   ref_to_mplace_to_ref_roundtrip demoCx
      ⟨.ScalarPair (.scalar (.Ptr ⟨2, 0⟩)) (.scalar (.Bits ptrSize 5)),
        refSliceLayout⟩
      ⟨⟨.Ptr ⟨2, 0⟩, 4, .Length 5⟩, sliceU32Layout⟩ rfl,
   ref_to_mplace_to_ref_roundtrip demoCx
      ⟨.ScalarPair (.scalar (.Ptr ⟨3, 0⟩)) (.scalar (.Ptr ⟨5, 0⟩)),
        refDynLayout⟩
      ⟨⟨.Ptr ⟨3, 0⟩, 1, .Vtable ⟨5, 0⟩⟩, dynLayout⟩ rfl⟩

/-- C7 counterexample: ConstantIndex{offset=0, from_end=true} on a length-5
slice does not equal Field(4) - it resolves to index 5 - 0 = 5 and fails the
bounds check, while Field(4) succeeds. -/
theorem constant_index_offset_zero_counterexample :
    mplace_projection demoCx demoSt sliceBase5 (.ConstantIndex 0 0 true) =
        .error .assertFail ∧
    mplace_field demoCx sliceBase5 4 =
        .ok ⟨⟨.Ptr ⟨2, 16⟩, 4, .None⟩, u32Layout⟩ ∧
    mplace_projection demoCx demoSt sliceBase5 (.ConstantIndex 0 0 true) ≠
        mplace_field demoCx sliceBase5 4 :=
  ⟨rfl, rfl, fun hc => Except.noConfusion hc⟩

/-- C7 (amended): a ConstantIndex projection with from_end=true on a base of
dynamic length n (asserted at least min_length) resolves, for offset ≤ n, to
the element index n - offset and delegates to Field; in particular offset=1
gives Field(n-1), while offset=0 gives index n and fails the bounds check. -/
theorem constant_index_from_end (cx : EvalCtx) (st : State) (base : MPlaceTy)
    (offset min_length n : Nat) (hn : base.len = .ok n) (hml : min_length ≤ n)
    (hoff : offset ≤ n) :
    mplace_projection cx st base (.ConstantIndex offset min_length true) =
        mplace_field cx base (n - offset) ∧
    (offset = 0 →
      mplace_projection cx st base (.ConstantIndex offset min_length true) =
        .error .assertFail) := by
  constructor
  · unfold mplace_projection
    rw [hn]
    simp [hml, wsub64_of_le hoff]
  · intro h0
    subst h0
    have harr : ∃ stride count, base.layout.fields = .Array stride count := by
      unfold MPlaceTy.len at hn
      split at hn
      next stride count heq => exact ⟨stride, count, heq⟩
      next heq => exact absurd hn (by simp)
    obtain ⟨stride, count, harr⟩ := harr
    unfold mplace_projection
    rw [hn]
    simp only [hml, if_pos, if_true]
    have hws : wsub64 n 0 = n := by simp [wsub64]
    rw [hws]
    unfold mplace_field
    rw [harr, hn]
    simp

/-- Witness for C7's amended theorem at a concrete input: on the length-5
demo slice with offset 1, the projection equals Field(4), and offset 1 is
not 0 so the second conjunct is vacuous there; a second application at
offset 0 exercises the failure conjunct. -/
theorem constant_index_from_end_witness :
    (mplace_projection demoCx demoSt sliceBase5 (.ConstantIndex 1 0 true) =
        mplace_field demoCx sliceBase5 4 ∧
      (1 = 0 →
        mplace_projection demoCx demoSt sliceBase5 (.ConstantIndex 1 0 true) =
          .error .assertFail)) ∧
    (mplace_projection demoCx demoSt sliceBase5 (.ConstantIndex 0 0 true) =
        mplace_field demoCx sliceBase5 5 ∧
      (0 = 0 →
        mplace_projection demoCx demoSt sliceBase5 (.ConstantIndex 0 0 true) =
          .error .assertFail)) :=
  ⟨constant_index_from_end demoCx demoSt sliceBase5 1 0 5 rfl (by decide)
      (by decide),
   constant_index_from_end demoCx demoSt sliceBase5 0 0 5 rfl (by decide)
      (by decide)⟩

/-- C10: mplace_subslice's bounds guard is the single assertion
from <= len - to with the subtraction performed in wrapping unsigned 64-bit
arithmetic; under the unstated precondition to <= len the subtraction does
not wrap and the guard is equivalent to from + to <= len (and the guard
failure aborts the subslice); without the precondition the guard can pass
although from + to exceeds len, as len=5, to=6 shows. -/
theorem subslice_guard (cx : EvalCtx) (base : MPlaceTy)
    (fromIdx toIdx len : Nat) (hlen : base.len = .ok len)
    (hto : toIdx ≤ len) :
    ((fromIdx ≤ wsub64 len toIdx) ↔ fromIdx + toIdx ≤ len) ∧
    wsub64 len toIdx = len - toIdx ∧
    (¬ fromIdx + toIdx ≤ len →
        mplace_subslice cx base fromIdx toIdx = .error .assertFail) ∧
    wsub64 5 6 = 2 ^ 64 - 1 := by
  have hws : wsub64 len toIdx = len - toIdx := wsub64_of_le hto
  refine ⟨by rw [hws]; omega, hws, ?_, by norm_num [wsub64]⟩
  intro hgt
  unfold mplace_subslice
  rw [hlen]
  have : ¬ fromIdx ≤ wsub64 len toIdx := by rw [hws]; omega
  simp [this]

/-- Witness for C10 at a concrete input: on the length-5 demo slice with
to=4, the guard is equivalent to from + 4 <= 5, the subtraction does not
wrap, and from=2 makes the subslice fail. -/
theorem subslice_guard_witness :
    ((2 ≤ wsub64 5 4) ↔ 2 + 4 ≤ 5) ∧
    wsub64 5 4 = 5 - 4 ∧
    (¬ 2 + 4 ≤ 5 → mplace_subslice demoCx sliceBase5 2 4 = .error .assertFail) ∧
    wsub64 5 6 = 2 ^ 64 - 1 :=
  subslice_guard demoCx sliceBase5 2 4 5 rfl (by decide)

/-- C8: a Subslice{from, to} projection on an array/slice base of length len
(with to ≤ len and from + to ≤ len) addresses the middle len-from-to
elements - its address is the base address plus stride*from, its alignment
is the base's, and the result is an array of length len-from-to with no
metadata for a fixed-array base, or the same slice type with
Length(len-from-to) metadata for a slice base; in particular
Subslice{from=1, to=1} on the 5-element demo slice yields a 3-element slice
whose address equals Field(1)'s address. -/
theorem mplace_subslice_spec (cx : EvalCtx) (base : MPlaceTy)
    (fromIdx toIdx len stride count : Nat) (p : Scalar)
    (hf : base.layout.fields = .Array stride count)
    (hlen : base.len = .ok len) (hto : toIdx ≤ len)
    (hsum : fromIdx + toIdx ≤ len)
    (hp : base.ptr.ptr_offset (stride * fromIdx) = .ok p) :
    (∀ inner c0 L, base.layout.ty = .array inner c0 →
        cx.layoutOf (.array inner (len - fromIdx - toIdx)) = .ok L →
        mplace_subslice cx base fromIdx toIdx =
          .ok ⟨⟨p, base.align, .None⟩, L⟩) ∧
    (∀ inner L, base.layout.ty = .slice inner →
        cx.layoutOf (.slice inner) = .ok L →
        mplace_subslice cx base fromIdx toIdx =
          .ok ⟨⟨p, base.align, .Length (len - fromIdx - toIdx)⟩, L⟩) ∧
    (mplace_subslice demoCx sliceBase5 1 1 =
        .ok ⟨⟨.Ptr ⟨2, 4⟩, 4, .Length 3⟩, sliceU32Layout⟩ ∧
      mplace_field demoCx sliceBase5 1 =
        .ok ⟨⟨.Ptr ⟨2, 4⟩, 4, .None⟩, u32Layout⟩) := by
  have hws1 : wsub64 len toIdx = len - toIdx := wsub64_of_le hto
  have hguard : fromIdx ≤ wsub64 len toIdx := by rw [hws1]; omega
  have hws2 : wsub64 (wsub64 len toIdx) fromIdx = len - fromIdx - toIdx := by
    rw [hws1, wsub64_of_le (by omega)]; omega
  refine ⟨?_, ?_, rfl, rfl⟩
  · intro inner c0 L hty hL
    unfold mplace_subslice
    simp only [hlen, if_pos hguard, hf, hp, hty, hws2, hL]
  · intro inner L hty hL
    unfold mplace_subslice
    simp only [hlen, if_pos hguard, hf, hp, hty, hws2, hL]

/-- Witness for C8 at a concrete input: the 5-element demo slice subsliced
with from=1, to=1. -/
theorem mplace_subslice_spec_witness :
    (∀ inner c0 L, sliceBase5.layout.ty = .array inner c0 →
        demoCx.layoutOf (.array inner (5 - 1 - 1)) = .ok L →
        mplace_subslice demoCx sliceBase5 1 1 =
          .ok ⟨⟨.Ptr ⟨2, 4⟩, sliceBase5.align, .None⟩, L⟩) ∧
    (∀ inner L, sliceBase5.layout.ty = .slice inner →
        demoCx.layoutOf (.slice inner) = .ok L →
        mplace_subslice demoCx sliceBase5 1 1 =
          .ok ⟨⟨.Ptr ⟨2, 4⟩, sliceBase5.align, .Length (5 - 1 - 1)⟩, L⟩) ∧
    (mplace_subslice demoCx sliceBase5 1 1 =
        .ok ⟨⟨.Ptr ⟨2, 4⟩, 4, .Length 3⟩, sliceU32Layout⟩ ∧
      mplace_field demoCx sliceBase5 1 =
        .ok ⟨⟨.Ptr ⟨2, 4⟩, 4, .None⟩, u32Layout⟩) :=
  mplace_subslice_spec demoCx sliceBase5 1 1 5 4 0 (.Ptr ⟨2, 4⟩) rfl rfl
    (by decide) (by decide) rfl

/-- C3: writing a scalar-pair value through write_value to a memory-backed
destination with scalar-pair ABI writes the first component at offset 0 with
the first primitive's size and the second component at
abi_align(size_of(first), align_of(second)) with the second primitive's
size; a destination carrying unsized metadata is rejected before any write;
and concretely, writing Value::ScalarPair(7, 9) to the {i32 at 0, i64 at 8}
demo struct and then reading field 1 yields scalar 9 at base+8. -/
theorem write_value_scalar_pair (st : State) (m : MemPlace) (lay : TyLayout)
    (pa pb : Primitive) (a b : ScalarMaybeUndefined) (bp : Scalar)
    (habi : lay.abi = .ScalarPair pa pb)
    (hbp : m.ptr.ptr_offset (abi_align pa.size pb.align) = .ok bp) :
    (m.extra ≠ .None →
      write_value st (.ScalarPair a b) ⟨.Ptr m, lay⟩ =
        (.error .assertFail, st)) ∧
    (m.extra = .None →
      write_value st (.ScalarPair a b) ⟨.Ptr m, lay⟩ =
        (.ok (), { st with
          mem := (st.mem.writeScalar m.ptr a pa.size).writeScalar bp b pb.size })) ∧
    (write_value demoSt (.ScalarPair (.scalar (.Bits 4 7)) (.scalar (.Bits 8 9)))
        demoPairDest = (.ok (), demoPairState) ∧
      mplace_field demoCx ⟨⟨.Ptr ⟨0, 0⟩, 8, .None⟩, pairLayout⟩ 1 =
        .ok ⟨⟨.Ptr ⟨0, 8⟩, 8, .None⟩, i64Layout⟩ ∧
      demoPairState.mem.readScalar (.Ptr ⟨0, 8⟩) 8 = .scalar (.Bits 8 9)) := by
  refine ⟨?_, ?_, rfl, rfl, rfl⟩
  · intro hne
    unfold write_value force_allocation write_value_to_mplace
    simp only [MPlaceTy.extra, MPlaceTy.ptr]
    rw [if_neg hne]
  · intro he
    unfold write_value force_allocation write_value_to_mplace
    simp only [MPlaceTy.extra, MPlaceTy.ptr, he, if_pos, habi, hbp]

/-- Witness for C3 at a concrete input: the demo pair destination. -/
theorem write_value_scalar_pair_witness :
    ((MemPlace.mk (.Ptr ⟨0, 0⟩) 8 .None).extra ≠ .None →
      write_value demoSt
          (.ScalarPair (.scalar (.Bits 4 7)) (.scalar (.Bits 8 9)))
          ⟨.Ptr ⟨.Ptr ⟨0, 0⟩, 8, .None⟩, pairLayout⟩ =
        (.error .assertFail, demoSt)) ∧
    ((MemPlace.mk (.Ptr ⟨0, 0⟩) 8 .None).extra = .None →
      write_value demoSt
          (.ScalarPair (.scalar (.Bits 4 7)) (.scalar (.Bits 8 9)))
          ⟨.Ptr ⟨.Ptr ⟨0, 0⟩, 8, .None⟩, pairLayout⟩ =
        (.ok (), { demoSt with
          mem := (demoSt.mem.writeScalar (Scalar.Ptr ⟨0, 0⟩)
                    (.scalar (.Bits 4 7)) (Primitive.Int 4 true).size).writeScalar
                  (.Ptr ⟨0, 8⟩) (.scalar (.Bits 8 9)) (Primitive.Int 8 true).size })) ∧
    (write_value demoSt (.ScalarPair (.scalar (.Bits 4 7)) (.scalar (.Bits 8 9)))
        demoPairDest = (.ok (), demoPairState) ∧
      mplace_field demoCx ⟨⟨.Ptr ⟨0, 0⟩, 8, .None⟩, pairLayout⟩ 1 =
        .ok ⟨⟨.Ptr ⟨0, 8⟩, 8, .None⟩, i64Layout⟩ ∧
      demoPairState.mem.readScalar (.Ptr ⟨0, 8⟩) 8 = .scalar (.Bits 8 9)) :=
  write_value_scalar_pair demoSt ⟨.Ptr ⟨0, 0⟩, 8, .None⟩ pairLayout
    (.Int 4 true) (.Int 8 true) (.scalar (.Bits 4 7)) (.scalar (.Bits 8 9))
    (.Ptr ⟨0, 8⟩) rfl rfl

/-- C1 counterexample: on a struct base carrying trait-object (Vtable)
metadata, mplace_field does not return base address + o_i - the offset is
first re-aligned upward to the pointee's runtime alignment recovered from
the vtable.  The demo dyn-tailed struct has offset table [0, 1] and a
vtable whose runtime alignment is 8, so field 1 lands at base+8, not
base+1. -/
theorem mplace_field_vtable_counterexample :
    dynBase.layout.fields = .Arbitrary [0, 1] ∧
    dynBase.mplace.ptr.ptr_offset 1 = .ok (.Ptr ⟨0, 1⟩) ∧
    mplace_field demoCx dynBase 1 =
      .ok ⟨⟨.Ptr ⟨0, 8⟩, 1, .Vtable ⟨5, 0⟩⟩, dynLayout⟩ ∧
    Scalar.Ptr ⟨0, 8⟩ ≠ Scalar.Ptr ⟨0, 1⟩ :=
  ⟨rfl, rfl, rfl, by decide⟩

/-- C1 (amended): for a field projection mplace_field(base, i) on a memory
place whose base carries no trait-object (Vtable) metadata: on success the
result's layout is field i's layout, its alignment is min(base alignment,
field alignment), its metadata is None when the field is statically sized
and is inherited from the base otherwise; for a struct base the address is
base address + o_i from the offset table, for an array/slice base the
address is base + stride*i with i below the dynamic length; and projecting
i = length on an array/slice base fails. -/
theorem mplace_field_spec (cx : EvalCtx) (base : MPlaceTy) (i : Nat)
    (hnv : base.extra.isVtable = false) :
    (∀ r, mplace_field cx base i = .ok r →
       cx.layoutField base.layout i = .ok r.layout ∧
       r.mplace.align = min base.align r.layout.align ∧
       (r.layout.is_unsized = false → r.mplace.extra = .None) ∧
       (r.layout.is_unsized = true → r.mplace.extra = base.extra) ∧
       (∀ offsets, base.layout.fields = .Arbitrary offsets →
          ∃ o, offsets[i]? = some o ∧
            base.ptr.ptr_offset o = .ok r.mplace.ptr) ∧
       (∀ stride count, base.layout.fields = .Array stride count →
          ∃ len, base.len = .ok len ∧ i < len ∧
            base.ptr.ptr_offset (stride * i) = .ok r.mplace.ptr)) ∧
    (∀ stride count len, base.layout.fields = .Array stride count →
       base.len = .ok len → i = len →
       mplace_field cx base i = .error .assertFail) := by
  have hadj : ∀ offset, adjustOffset cx base.extra offset = offset := by
    intro offset
    cases hbe : base.extra
    · rfl
    · rfl
    · rw [hbe] at hnv; exact absurd hnv (by simp [PlaceExtra.isVtable])
  constructor
  · intro r h
    unfold mplace_field at h
    simp only [hadj] at h
    split at h
    next e heq => exact absurd h (by simp)
    next offset heq =>
      split at h
      next e hf => exact absurd h (by simp)
      next fieldLayout hf =>
        split at h
        next e hoff => exact absurd h (by simp)
        next ptr hoff =>
          split at h
          next e hext => exact absurd h (by simp)
          next extra hext =>
              cases h
              refine ⟨hf, rfl, ?_, ?_, ?_, ?_⟩
              · intro hs
                dsimp only at hs ⊢
                rw [hs] at hext
                simp at hext
                exact hext.symm
              · intro hu
                dsimp only at hu ⊢
                rw [hu] at hext
                simp at hext
                by_cases hbe : base.extra = PlaceExtra.None
                · rw [if_pos hbe] at hext; exact absurd hext (by simp)
                · rw [if_neg hbe] at hext
                  simp at hext
                  exact hext.symm
              · intro offsets hoffs
                dsimp only
                cases ho : offsets[i]? with
                | none => rw [hoffs] at heq; simp [ho] at heq
                | some o =>
                  have hoo : o = offset := by
                    rw [hoffs] at heq; simpa [ho] using heq
                  exact ⟨o, rfl, by rw [hoo]; exact hoff⟩
              · intro stride count hstr
                dsimp only
                cases hl : base.len with
                | error e => rw [hstr] at heq; simp [hl] at heq
                | ok len =>
                  by_cases hi : i < len
                  · have hso : stride * i = offset := by
                      rw [hstr] at heq; simpa [hl, hi] using heq
                    exact ⟨len, rfl, hi, by rw [hso]; exact hoff⟩
                  · rw [hstr] at heq; simp [hl, hi] at heq
  · intro stride count len hf hlen hi
    subst hi
    unfold mplace_field
    simp [hf, hlen]

/-- Witness for C1's amended theorem at a concrete input: field 1 of the
{i32 at 0, i64 at 8} demo struct at a metadata-free base. -/
theorem mplace_field_spec_witness :
    (∀ r, mplace_field demoCx ⟨⟨.Ptr ⟨0, 0⟩, 8, .None⟩, pairLayout⟩ 1 = .ok r →
       demoCx.layoutField (MPlaceTy.layout ⟨⟨.Ptr ⟨0, 0⟩, 8, .None⟩, pairLayout⟩) 1 =
           .ok r.layout ∧
       r.mplace.align =
           min (MPlaceTy.align ⟨⟨.Ptr ⟨0, 0⟩, 8, .None⟩, pairLayout⟩) r.layout.align ∧
       (r.layout.is_unsized = false → r.mplace.extra = .None) ∧
       (r.layout.is_unsized = true →
           r.mplace.extra = MPlaceTy.extra ⟨⟨.Ptr ⟨0, 0⟩, 8, .None⟩, pairLayout⟩) ∧
       (∀ offsets,
          (MPlaceTy.layout ⟨⟨.Ptr ⟨0, 0⟩, 8, .None⟩, pairLayout⟩).fields =
              .Arbitrary offsets →
          ∃ o, offsets[1]? = some o ∧
            (MPlaceTy.ptr ⟨⟨.Ptr ⟨0, 0⟩, 8, .None⟩, pairLayout⟩).ptr_offset o =
              .ok r.mplace.ptr) ∧
       (∀ stride count,
          (MPlaceTy.layout ⟨⟨.Ptr ⟨0, 0⟩, 8, .None⟩, pairLayout⟩).fields =
              .Array stride count →
          ∃ len, MPlaceTy.len ⟨⟨.Ptr ⟨0, 0⟩, 8, .None⟩, pairLayout⟩ = .ok len ∧
            1 < len ∧
            (MPlaceTy.ptr ⟨⟨.Ptr ⟨0, 0⟩, 8, .None⟩, pairLayout⟩).ptr_offset
                (stride * 1) = .ok r.mplace.ptr)) ∧
    (∀ stride count len,
       (MPlaceTy.layout ⟨⟨.Ptr ⟨0, 0⟩, 8, .None⟩, pairLayout⟩).fields =
           .Array stride count →
       MPlaceTy.len ⟨⟨.Ptr ⟨0, 0⟩, 8, .None⟩, pairLayout⟩ = .ok len → 1 = len →
       mplace_field demoCx ⟨⟨.Ptr ⟨0, 0⟩, 8, .None⟩, pairLayout⟩ 1 =
           .error .assertFail) :=
  mplace_field_spec demoCx ⟨⟨.Ptr ⟨0, 0⟩, 8, .None⟩, pairLayout⟩ 1 rfl

/-- C5: for a NicheFilling-encoded enum destination (field-0 offset o0,
sized niche field layout nfl at address base+o0), write_discriminant_value
with a non-dataful variant index writes into field 0 the value
niche_start + (variant - first_niche_variant) wrapping modulo the niche
field's width, and the dataful variant index performs no write at all. -/
theorem write_discriminant_niche (cx : EvalCtx) (st : State) (m : MemPlace)
    (lay : TyLayout) (dataful start nstart : Nat) (offs : List Nat) (o0 : Nat)
    (nfl : TyLayout) (np : Scalar) (variant : Nat)
    (hv : lay.variants = .NicheFilling dataful start nstart)
    (hfields : lay.fields = .Arbitrary offs) (ho : offs[0]? = some o0)
    (hfl : cx.layoutField lay 0 = .ok nfl) (hsized : nfl.is_unsized = false)
    (hext : m.extra = .None) (hp : m.ptr.ptr_offset o0 = .ok np)
    (hsz : nfl.size ≤ 16) :
    (variant = dataful →
      write_discriminant_value cx st variant ⟨.Ptr m, lay⟩ = (.ok (), st)) ∧
    (variant ≠ dataful → start ≤ variant →
      write_discriminant_value cx st variant ⟨.Ptr m, lay⟩ =
        (.ok (), { st with mem := { st.mem with writes :=
          ⟨np, nfl.size, .scalar (.Bits nfl.size
            ((nstart + (variant - start)) % 2 ^ (8 * nfl.size)))⟩ ::
            st.mem.writes } })) := by
  have hmf := mplace_field_arbitrary cx m lay 0 offs o0 nfl np hfields ho hfl
    hext hp hsized
  have hpf := place_field_ptr cx st m lay 0 _ hmf
  constructor
  · intro hd
    unfold write_discriminant_value
    simp only [hv]
    simp [hd]
  · intro hne hge
    unfold write_discriminant_value
    simp only [hv]
    rw [if_pos hne]
    simp only [hpf, MPlaceTy.toPlaceTy]
    rw [write_scalar_place_ptr st _ _ _ rfl]
    unfold Memory.writeScalar truncScalar
    dsimp only
    have harith : (wsub64 variant start + nstart) % 2 ^ 128 % 2 ^ (8 * nfl.size) =
        (nstart + (variant - start)) % 2 ^ (8 * nfl.size) := by
      rw [wsub64_of_le hge,
          Nat.mod_mod_of_dvd _ (pow_dvd_pow 2 (by omega)), Nat.add_comm]
    rw [harith]

/-- Witness for C5 at concrete inputs: the demo niche enum with
niche_start=0, first niche variant 1 and dataful variant 0 - writing the
dataful variant 0 leaves the state untouched (the no-write conjunct applied
non-vacuously at 0 = 0), and writing variant 2 stores niche value 1. -/
theorem write_discriminant_niche_witness :
    ((0 = 0 →
      write_discriminant_value demoCx demoSt 0 ⟨.Ptr ⟨.Ptr ⟨1, 0⟩, 1, .None⟩,
        nicheEnumLayout⟩ = (.ok (), demoSt)) ∧
     (0 ≠ 0 → 1 ≤ 0 →
      write_discriminant_value demoCx demoSt 0 ⟨.Ptr ⟨.Ptr ⟨1, 0⟩, 1, .None⟩,
        nicheEnumLayout⟩ =
        (.ok (), { demoSt with mem := { demoSt.mem with writes :=
          ⟨.Ptr ⟨1, 0⟩, u8Layout.size, .scalar (.Bits u8Layout.size
            ((0 + (0 - 1)) % 2 ^ (8 * u8Layout.size)))⟩ ::
            demoSt.mem.writes } }))) ∧
    ((2 = 0 →
      write_discriminant_value demoCx demoSt 2 ⟨.Ptr ⟨.Ptr ⟨1, 0⟩, 1, .None⟩,
        nicheEnumLayout⟩ = (.ok (), demoSt)) ∧
     (2 ≠ 0 → 1 ≤ 2 →
      write_discriminant_value demoCx demoSt 2 ⟨.Ptr ⟨.Ptr ⟨1, 0⟩, 1, .None⟩,
        nicheEnumLayout⟩ =
        (.ok (), { demoSt with mem := { demoSt.mem with writes :=
          ⟨.Ptr ⟨1, 0⟩, u8Layout.size, .scalar (.Bits u8Layout.size
            ((0 + (2 - 1)) % 2 ^ (8 * u8Layout.size)))⟩ ::
            demoSt.mem.writes } }))) :=
  ⟨write_discriminant_niche demoCx demoSt ⟨.Ptr ⟨1, 0⟩, 1, .None⟩
      nicheEnumLayout 0 1 0 [0] 0 u8Layout (.Ptr ⟨1, 0⟩) 0 rfl rfl rfl rfl rfl
      rfl rfl (by decide),
   write_discriminant_niche demoCx demoSt ⟨.Ptr ⟨1, 0⟩, 1, .None⟩
      nicheEnumLayout 0 1 0 [0] 0 u8Layout (.Ptr ⟨1, 0⟩) 2 rfl rfl rfl rfl rfl
      rfl rfl (by decide)⟩

/-- C6: for a Tagged-encoded enum destination (field-0 offset o0, sized tag
field layout tfl of the tag's byte size at address base+o0),
write_discriminant_value with variant index k writes into the tag field the
variant's raw discriminant narrowed by the 128-bit shift pair - which equals
the discriminant taken modulo the tag width, also for signed (two's
complement) discriminants - and reading the tag field back yields exactly
that narrowed value. -/
theorem write_discriminant_tagged (cx : EvalCtx) (st : State) (m : MemPlace)
    (lay : TyLayout) (tag : Primitive) (adtId : Nat) (adtFs : List Ty)
    (offs : List Nat) (o0 : Nat) (tfl : TyLayout) (tp : Scalar)
    (variant : Nat)
    (hv : lay.variants = .Tagged tag) (hty : lay.ty = .adt adtId adtFs)
    (hfields : lay.fields = .Arbitrary offs) (ho : offs[0]? = some o0)
    (hfl : cx.layoutField lay 0 = .ok tfl) (hsized : tfl.is_unsized = false)
    (hext : m.extra = .None) (hp : m.ptr.ptr_offset o0 = .ok tp)
    (hts : tfl.size = tag.size) (hsz : tag.size ≤ 16) :
    write_discriminant_value cx st variant ⟨.Ptr m, lay⟩ =
      (.ok (), { st with mem := { st.mem with writes :=
        ⟨tp, tfl.size, .scalar (.Bits tfl.size
          (cx.discriminantFor lay.ty variant % 2 ^ (8 * tag.size)))⟩ ::
          st.mem.writes } }) ∧
    Memory.readScalar { st.mem with writes :=
        ⟨tp, tfl.size, .scalar (.Bits tfl.size
          (cx.discriminantFor lay.ty variant % 2 ^ (8 * tag.size)))⟩ ::
          st.mem.writes } tp tfl.size =
      .scalar (.Bits tfl.size
        (cx.discriminantFor lay.ty variant % 2 ^ (8 * tag.size))) := by
  have hmf := mplace_field_arbitrary cx m lay 0 offs o0 tfl tp hfields ho hfl
    hext hp hsized
  have hpf := place_field_ptr cx st m lay 0 _ hmf
  constructor
  · unfold write_discriminant_value
    simp only [hv, hty, hpf, MPlaceTy.toPlaceTy]
    rw [write_scalar_place_ptr st _ _ _ rfl]
    unfold Memory.writeScalar truncScalar
    dsimp only
    have hnarrow : ∀ d : Nat,
        ((d <<< (128 - 8 * tag.size)) % 2 ^ 128) >>> (128 - 8 * tag.size) =
          d % 2 ^ (8 * tag.size) := fun d => shift_narrow d _ (by omega)
    rw [hnarrow, hts, Nat.mod_mod_of_dvd _ (dvd_refl _)]
  · unfold Memory.readScalar
    rw [List.find?_cons_of_pos]
    simp

/-- Witness for C6 at a concrete input: the demo tagged enum with a one-byte
signed tag and raw discriminant 2^128 - 2 (two's complement -2) for variant
0 - the written and re-read tag value is 254. -/
theorem write_discriminant_tagged_witness :
    write_discriminant_value demoCx demoSt 0 ⟨.Ptr ⟨.Ptr ⟨1, 0⟩, 1, .None⟩,
        taggedEnumLayout⟩ =
      (.ok (), { demoSt with mem := { demoSt.mem with writes :=
        ⟨.Ptr ⟨1, 0⟩, i8Layout.size, .scalar (.Bits i8Layout.size
          (demoCx.discriminantFor taggedEnumLayout.ty 0 %
            2 ^ (8 * (Primitive.Int 1 true).size)))⟩ ::
          demoSt.mem.writes } }) ∧
    Memory.readScalar { demoSt.mem with writes :=
        ⟨.Ptr ⟨1, 0⟩, i8Layout.size, .scalar (.Bits i8Layout.size
          (demoCx.discriminantFor taggedEnumLayout.ty 0 %
            2 ^ (8 * (Primitive.Int 1 true).size)))⟩ ::
          demoSt.mem.writes } (.Ptr ⟨1, 0⟩) i8Layout.size =
      .scalar (.Bits i8Layout.size
        (demoCx.discriminantFor taggedEnumLayout.ty 0 %
          2 ^ (8 * (Primitive.Int 1 true).size))) :=
  write_discriminant_tagged demoCx demoSt ⟨.Ptr ⟨1, 0⟩, 1, .None⟩
    taggedEnumLayout (.Int 1 true) 3 [] [0] 0 i8Layout (.Ptr ⟨1, 0⟩) 0
    rfl rfl rfl rfl rfl rfl rfl rfl rfl (by decide)

/-- C4: force_allocation is idempotent on locals - two successive calls on
the same local place return the identical memory place (address, alignment
and metadata), the second call performs no allocation or write (its memory
is unchanged), a scalar written through the first returned place is read
back through the second, both returned places keep the caller's original
(possibly downcast) layout, and when the slot was register-resident the
first call made exactly one allocation sized and aligned per the local's
static layout. -/
theorem force_allocation_idempotent (st st1 st2 : State) (pl : PlaceTy)
    (f l : Nat) (mp1 mp2 : MPlaceTy) (hpl : pl.place = .Local f l)
    (h1 : force_allocation st pl = (.ok mp1, st1))
    (h2 : force_allocation st1 pl = (.ok mp2, st2)) :
    mp1.mplace = mp2.mplace ∧ mp1.layout = pl.layout ∧
    mp2.layout = pl.layout ∧ st2.mem = st1.mem ∧
    (∀ v, Memory.readScalar
        (Memory.writeScalar st2.mem mp1.mplace.ptr v pl.layout.size)
        mp2.mplace.ptr pl.layout.size = truncScalar v pl.layout.size) ∧
    (∀ F v L, st.stack[f]? = some F →
       F.locals[l]? = some (some (.Immediate v)) →
       st.layoutOfLocal f l = .ok L →
       st1.mem.allocs = st.mem.allocs ++ [(L.size, L.align, .Stack)] ∧
       mp1.mplace.ptr = .Ptr ⟨st.mem.allocs.length, 0⟩ ∧
       mp1.mplace.align = L.align) := by
  obtain ⟨hlay1, hacc1, hll1, hImm1, hInd1⟩ := force_allocation_local_ok hpl h1
  obtain ⟨hlay2, hacc2, hll2, hImm2, hInd2⟩ := force_allocation_local_ok hpl h2
  obtain ⟨F1, hF1, hFl1⟩ := accessLocal_ok_elim hacc1
  obtain ⟨hmp21, hmem21⟩ := hInd2 F1 mp1.mplace hF1 hFl1
  refine ⟨hmp21.symm, hlay1, hlay2, hmem21, ?_, hImm1⟩
  intro v
  rw [hmp21]
  exact readScalar_writeScalar _ _ _ _

/-- Witness for C4 at a concrete input: a one-frame state whose only local
already holds an indirect place; forcing twice returns that place both
times, with the state unchanged. -/
theorem force_allocation_idempotent_witness :
    (MPlaceTy.mplace ⟨⟨.Ptr ⟨0, 0⟩, 4, .None⟩, u32Layout⟩) =
        (MPlaceTy.mplace ⟨⟨.Ptr ⟨0, 0⟩, 4, .None⟩, u32Layout⟩) ∧
    (MPlaceTy.layout ⟨⟨.Ptr ⟨0, 0⟩, 4, .None⟩, u32Layout⟩) =
        PlaceTy.layout ⟨.Local 0 0, u32Layout⟩ ∧
    (MPlaceTy.layout ⟨⟨.Ptr ⟨0, 0⟩, 4, .None⟩, u32Layout⟩) =
        PlaceTy.layout ⟨.Local 0 0, u32Layout⟩ ∧
    (State.mk emptyMem [⟨[some (.Indirect ⟨.Ptr ⟨0, 0⟩, 4, .None⟩)],
        [u32Layout]⟩]).mem =
      (State.mk emptyMem [⟨[some (.Indirect ⟨.Ptr ⟨0, 0⟩, 4, .None⟩)],
        [u32Layout]⟩]).mem ∧
    (∀ v, Memory.readScalar
        (Memory.writeScalar
          (State.mk emptyMem [⟨[some (.Indirect ⟨.Ptr ⟨0, 0⟩, 4, .None⟩)],
            [u32Layout]⟩]).mem
          (MPlaceTy.mplace ⟨⟨.Ptr ⟨0, 0⟩, 4, .None⟩, u32Layout⟩).ptr v
          (PlaceTy.layout ⟨.Local 0 0, u32Layout⟩).size)
        (MPlaceTy.mplace ⟨⟨.Ptr ⟨0, 0⟩, 4, .None⟩, u32Layout⟩).ptr
        (PlaceTy.layout ⟨.Local 0 0, u32Layout⟩).size =
      truncScalar v (PlaceTy.layout ⟨.Local 0 0, u32Layout⟩).size) ∧
    (∀ F v L, (State.mk emptyMem [⟨[some (.Indirect ⟨.Ptr ⟨0, 0⟩, 4, .None⟩)],
          [u32Layout]⟩]).stack[0]? = some F →
       F.locals[0]? = some (some (.Immediate v)) →
       (State.mk emptyMem [⟨[some (.Indirect ⟨.Ptr ⟨0, 0⟩, 4, .None⟩)],
          [u32Layout]⟩]).layoutOfLocal 0 0 = .ok L →
       (State.mk emptyMem [⟨[some (.Indirect ⟨.Ptr ⟨0, 0⟩, 4, .None⟩)],
          [u32Layout]⟩]).mem.allocs =
         (State.mk emptyMem [⟨[some (.Indirect ⟨.Ptr ⟨0, 0⟩, 4, .None⟩)],
            [u32Layout]⟩]).mem.allocs ++ [(L.size, L.align, .Stack)] ∧
       (MPlaceTy.mplace ⟨⟨.Ptr ⟨0, 0⟩, 4, .None⟩, u32Layout⟩).ptr =
         .Ptr ⟨(State.mk emptyMem [⟨[some (.Indirect ⟨.Ptr ⟨0, 0⟩, 4, .None⟩)],
            [u32Layout]⟩]).mem.allocs.length, 0⟩ ∧
       (MPlaceTy.mplace ⟨⟨.Ptr ⟨0, 0⟩, 4, .None⟩, u32Layout⟩).align = L.align) :=
  force_allocation_idempotent
    (State.mk emptyMem [⟨[some (.Indirect ⟨.Ptr ⟨0, 0⟩, 4, .None⟩)],
      [u32Layout]⟩])
    (State.mk emptyMem [⟨[some (.Indirect ⟨.Ptr ⟨0, 0⟩, 4, .None⟩)],
      [u32Layout]⟩])
    (State.mk emptyMem [⟨[some (.Indirect ⟨.Ptr ⟨0, 0⟩, 4, .None⟩)],
      [u32Layout]⟩])
    ⟨.Local 0 0, u32Layout⟩ 0 0
    ⟨⟨.Ptr ⟨0, 0⟩, 4, .None⟩, u32Layout⟩ ⟨⟨.Ptr ⟨0, 0⟩, 4, .None⟩, u32Layout⟩
    rfl rfl rfl

end MirPlace
